import Mathlib

/-!
# Verification of the quantum-sim repository

Shallow embedding of `src/pyquant.py` (class `QuantumSimulator`) and
`src/quantum_token_processor.py` (class `QuantumTokenProcessor`).

The repository builds quantum circuits as ordered gate lists and delegates
statevector simulation and measurement sampling to the external qiskit /
AerSimulator library.  The circuit-building layer is embedded directly from
the source; the statevector engine, the sampler and the configuration
validation are modelled from the specification (sections 4.1, 4.4, 7), since
their implementation is not part of this repository's source tree.

Angles are real numbers; Python floats are embedded as elements of `ℝ`.
Python `%` and `//` on integers with a positive divisor agree with
`Int.emod` and `Int.ediv`.
-/

open scoped Classical

namespace QuantumSim

/-- A gate operation, as appended by the circuit-building methods of
`QuantumSimulator`: Hadamard, Pauli-X, controlled-X, Z-rotation, Y-rotation
and single-qubit measurement into a classical bit.  Mirrors the qiskit calls
`h`, `x`, `cx`, `rz`, `ry`, `measure` made in `src/pyquant.py` and
`src/quantum_token_processor.py`. -/
inductive Gate where
  | h (q : ℕ)
  | x (q : ℕ)
  | cx (c t : ℕ)
  | rz (θ : ℝ) (q : ℕ)
  | ry (θ : ℝ) (q : ℕ)
  | measure (q c : ℕ)

/-- State of a `QuantumSimulator` object from `src/pyquant.py`: the qubit
count (`self.num_qubits`) and the ordered operation log of `self.circuit`.
The backend object `self.simulator` (an `AerSimulator`) carries no state
relevant to circuit construction and is not represented. -/
structure QuantumSimulator where
  num_qubits : ℕ
  circuit : List Gate

/-- Appending one instruction to `self.circuit`; every gate method of
`QuantumSimulator` is an instance of this. -/
def append_gate (s : QuantumSimulator) (g : Gate) : QuantumSimulator :=
  { s with circuit := s.circuit ++ [g] }

/-- `apply_hadamard(qubit)`: `self.circuit.h(qubit)`, returns `self`. -/
def apply_hadamard (s : QuantumSimulator) (q : ℕ) : QuantumSimulator :=
  append_gate s (.h q)

/-- `apply_cnot(control_qubit, target_qubit)`: `self.circuit.cx(...)`. -/
def apply_cnot (s : QuantumSimulator) (c t : ℕ) : QuantumSimulator :=
  append_gate s (.cx c t)

/-- `apply_phase(qubit, angle)`: `self.circuit.rz(angle, qubit)`. -/
def apply_phase (s : QuantumSimulator) (q : ℕ) (angle : ℝ) : QuantumSimulator :=
  append_gate s (.rz angle q)

/-- `measure_qubit(qubit, classical_bit)`: `self.circuit.measure(qubit, classical_bit)`. -/
def measure_qubit (s : QuantumSimulator) (q c : ℕ) : QuantumSimulator :=
  append_gate s (.measure q c)

/-- `measure_all()`: `for i in range(self.num_qubits): self.circuit.measure(i, i)`. -/
def measure_all (s : QuantumSimulator) : QuantumSimulator :=
  (List.range s.num_qubits).foldl (fun st i => measure_qubit st i i) s

/-- `create_bell_pair()`: `self.apply_hadamard(0)` then `self.apply_cnot(0, 1)`. -/
def create_bell_pair (s : QuantumSimulator) : QuantumSimulator :=
  apply_cnot (apply_hadamard s 0) 0 1

/-- `quantum_teleportation(state_to_teleport)` with
`state_to_teleport = [a, b]`: conditional `x(0)`, conditional `rz(b, 0)`,
then `h(1)`, `cx(1, 2)`, `cx(0, 1)`, `h(0)`,
`measure([0, 1], [0, 1])` (i.e. measure qubit 0 into clbit 0 and
qubit 1 into clbit 1). -/
noncomputable def quantum_teleportation (s : QuantumSimulator) (a b : ℝ) :
    QuantumSimulator :=
  let s1 := if a ≠ 0 then append_gate s (.x 0) else s
  let s2 := if b ≠ 0 then append_gate s1 (.rz b 0) else s1
  let s3 := append_gate s2 (.h 1)
  let s4 := append_gate s3 (.cx 1 2)
  let s5 := append_gate s4 (.cx 0 1)
  let s6 := append_gate s5 (.h 0)
  let s7 := append_gate s6 (.measure 0 0)
  append_gate s7 (.measure 1 1)

/-- Folding a gate-appending loop over an index list extends the operation
log by the mapped gates and changes nothing else. -/
theorem foldl_append_gate (f : ℕ → Gate) (l : List ℕ) (s : QuantumSimulator) :
    l.foldl (fun st i => append_gate st (f i)) s
      = { s with circuit := s.circuit ++ l.map f } := by
  induction l generalizing s with
  | nil => simp
  | cons a l ih =>
      rw [List.map_cons, List.foldl_cons, ih]
      simp [append_gate, List.append_assoc]

theorem measure_all_def (s : QuantumSimulator) :
    measure_all s
      = { s with circuit :=
            s.circuit ++ (List.range s.num_qubits).map (fun i => Gate.measure i i) } := by
  simpa [measure_all, measure_qubit] using
    foldl_append_gate (fun i => Gate.measure i i) (List.range s.num_qubits) s

/-! ## The token processor (`src/quantum_token_processor.py`)

`QuantumTokenProcessor` holds `self.n_qubits` and `self.quantum_sim`; the
tokenizer, console and HuggingFace-authentication state play no role in the
circuit-building methods and are not represented.  Token ids are Python
integers; `%` and `//` with the positive divisors `2**n` used here agree
with `Int.emod` and `Int.ediv`. -/

/-- Circuit-relevant state of a `QuantumTokenProcessor`. -/
structure QuantumTokenProcessor where
  n_qubits : ℕ
  quantum_sim : QuantumSimulator

namespace QuantumTokenProcessor

/-- `_amplitude_encoding(token_id)`:
`normalized_value = (token_id % 2**n) / (2**n)`; `angle = normalized_value * np.pi`;
`self.quantum_sim.circuit.ry(angle, 0)`; then
`for i in range(self.n_qubits - 1): self.quantum_sim.apply_cnot(i, i + 1)`. -/
noncomputable def amplitude_encoding (p : QuantumTokenProcessor) (token_id : ℤ) :
    QuantumTokenProcessor :=
  let normalized_value : ℝ :=
    ((token_id.emod (2 ^ p.n_qubits) : ℤ) : ℝ) / ((2 : ℝ) ^ p.n_qubits)
  let angle : ℝ := normalized_value * Real.pi
  let sim := append_gate p.quantum_sim (.ry angle 0)
  let sim := (List.range (p.n_qubits - 1)).foldl (fun s i => apply_cnot s i (i + 1)) sim
  { p with quantum_sim := sim }

/-- `_phase_encoding(token_id)`:
`for i in range(self.n_qubits): self.quantum_sim.circuit.h(i)`;
`normalized_phase = (token_id % 2**n) / (2**n) * 2 * np.pi`;
`self.quantum_sim.circuit.rz(normalized_phase, 0)`; then
`for i in range(self.n_qubits - 1): self.quantum_sim.apply_cnot(i, i + 1)`. -/
noncomputable def phase_encoding (p : QuantumTokenProcessor) (token_id : ℤ) :
    QuantumTokenProcessor :=
  let sim := (List.range p.n_qubits).foldl (fun s i => append_gate s (.h i)) p.quantum_sim
  let normalized_phase : ℝ :=
    ((token_id.emod (2 ^ p.n_qubits) : ℤ) : ℝ) / ((2 : ℝ) ^ p.n_qubits) * 2 * Real.pi
  let sim := append_gate sim (.rz normalized_phase 0)
  let sim := (List.range (p.n_qubits - 1)).foldl (fun s i => apply_cnot s i (i + 1)) sim
  { p with quantum_sim := sim }

/-- `_hybrid_encoding(token_id)`:
`amplitude_part = token_id % 2**(n-1)`; `phase_part = token_id // 2**(n-1)`;
`self._amplitude_encoding(amplitude_part)`; `self._phase_encoding(phase_part)`. -/
noncomputable def hybrid_encoding (p : QuantumTokenProcessor) (token_id : ℤ) :
    QuantumTokenProcessor :=
  let amplitude_part := token_id.emod (2 ^ (p.n_qubits - 1))
  let phase_part := token_id.ediv (2 ^ (p.n_qubits - 1))
  phase_encoding (amplitude_encoding p amplitude_part) phase_part

/-- `process_token(token_id, scheme)`, up to but not including the external
sampling step: `self.quantum_sim = QuantumSimulator(self.n_qubits)` (fresh
simulator), `encoding_func = self.encoding_schemes.get(scheme, self._hybrid_encoding)`
(falling back to hybrid on an unrecognized name), `encoding_func(token_id)`,
`self.quantum_sim.measure_all()`.  The subsequent `run(shots=1000)` call is
handled by the spec-modelled sampler below. -/
noncomputable def process_token (p : QuantumTokenProcessor) (token_id : ℤ)
    (scheme : String) : QuantumTokenProcessor :=
  let p' : QuantumTokenProcessor :=
    { p with quantum_sim := ⟨p.n_qubits, []⟩ }
  let p'' :=
    if scheme = "amplitude" then amplitude_encoding p' token_id
    else if scheme = "phase" then phase_encoding p' token_id
    else if scheme = "hybrid" then hybrid_encoding p' token_id
    else hybrid_encoding p' token_id
  { p'' with quantum_sim := measure_all p''.quantum_sim }

end QuantumTokenProcessor

/-! ## Statevector engine (spec §4.1)

The repository delegates statevector evolution to the external
`qiskit_aer.AerSimulator`; no engine code is under `src/`.  The engine is
therefore modelled from the spec: an amplitude vector indexed by basis
indices, where bit `k` of index `i` is the value of qubit `k` (spec §3),
and each gate acts by its stated 2×2 / 4×4 unitary tensored with identity. -/

/-- Modelled from the spec: the amplitude vector of the Statevector Engine
(spec §3, §4.1), indexed by computational-basis index; the engine itself
(qiskit `AerSimulator`) is not in `src/`.  Indices ≥ 2^N carry amplitude 0
throughout for an N-qubit register. -/
def QState := ℕ → ℂ

/-- Modelled from the spec: `initialize(n)` gives the ground state
`[1, 0, 0, …, 0]` (spec §4.1). -/
noncomputable def ground : QState := fun i => if i = 0 then 1 else 0

/-- Modelled from the spec: the unitary action of one gate (spec §4.1),
with qubit `k` of basis index `i` given by `Nat.testBit i k`:
Hadamard maps |0⟩ ↦ (|0⟩+|1⟩)/√2 and |1⟩ ↦ (|0⟩−|1⟩)/√2; Pauli-X flips the
bit; controlled-X flips the target bit when the control bit is 1;
RotationZ applies phases e^{∓iθ/2} to the |0⟩/|1⟩ components; RotationY
mixes with cos(θ/2), sin(θ/2).  Measurement operations do not change the
amplitudes (spec §4.4 runs the non-measurement gates). -/
noncomputable def apply_gate : Gate → QState → QState
  | .h q, s => fun i =>
      if Nat.testBit i q then (s (i ^^^ 2 ^ q) - s i) / ((Real.sqrt 2 : ℝ) : ℂ)
      else (s i + s (i ^^^ 2 ^ q)) / ((Real.sqrt 2 : ℝ) : ℂ)
  | .x q, s => fun i => s (i ^^^ 2 ^ q)
  | .cx c t, s => fun i => if Nat.testBit i c then s (i ^^^ 2 ^ t) else s i
  | .rz θ q, s => fun i =>
      if Nat.testBit i q then Complex.exp (Complex.I * ((θ / 2 : ℝ) : ℂ)) * s i
      else Complex.exp (-(Complex.I * ((θ / 2 : ℝ) : ℂ))) * s i
  | .ry θ q, s => fun i =>
      if Nat.testBit i q then
        ((Real.sin (θ / 2) : ℝ) : ℂ) * s (i ^^^ 2 ^ q)
          + ((Real.cos (θ / 2) : ℝ) : ℂ) * s i
      else
        ((Real.cos (θ / 2) : ℝ) : ℂ) * s i
          - ((Real.sin (θ / 2) : ℝ) : ℂ) * s (i ^^^ 2 ^ q)
  | .measure _ _, s => s

/-- Modelled from the spec: executing the circuit's gate log once to obtain
the final amplitude vector (spec §4.4). -/
noncomputable def run_gates (ops : List Gate) (s : QState) : QState :=
  ops.foldl (fun st g => apply_gate g st) s

/-- Modelled from the spec: the Born-rule probability of basis index `i`
is the squared magnitude of its amplitude (spec §4.4, glossary). -/
noncomputable def born (s : QState) (i : ℕ) : ℝ := Complex.normSq (s i)

/-- The bitstring of a measured basis index over `n` classical bits, one
character per bit, qubit 0 rightmost (the string layout of the returned
counts keys, e.g. `"00"`, `"11"` for the Bell pair). -/
def bitstring (n i : ℕ) : String :=
  ⟨(List.range n).reverse.map (fun k => if Nat.testBit i k then '1' else '0')⟩

/-! ## Sampler and configuration validation (spec §4.4, §7)

`QuantumSimulator.run` forwards to `AerSimulator.run`, and
`QuantumSimulator.__init__` forwards its qubit count to qiskit's
`QuantumCircuit`; validation and sampling happen in that external library.
Both are therefore modelled from the spec's error taxonomy (§7) and sampler
contract (§4.4). -/

/-- Modelled from the spec: the error taxonomy of §7 — `ConfigurationError`
for an invalid qubit count and `InvalidShotCount` for `shots ≤ 0` (§4.4). -/
inductive SimError where
  | invalidShotCount
  | configurationError
deriving DecidableEq

/-- Modelled from the spec: constructing a simulator rejects a qubit count
that is zero or negative with a `ConfigurationError` (spec §7, §8); the
check itself lives in the external circuit library, not in `src/`. -/
def mk_simulator (n : ℤ) : Except SimError QuantumSimulator :=
  if n ≤ 0 then .error .configurationError
  else .ok ⟨n.toNat, []⟩

/-- Modelled from the spec: the multiset of formatted outcomes of one `run`
— for each of `shots` independent trials, one basis index is drawn from the
Born-rule categorical distribution and formatted as a bitstring (spec §4.4).
The weighted-random source is abstracted as `draw`, giving trial `k`'s
drawn basis index. -/
def sample_histogram (n : ℕ) (draw : ℕ → ℕ) (shots : ℕ) : Multiset String :=
  ((List.range shots).map (fun k => bitstring n (draw k)) : List String)

/-- Modelled from the spec: `run(circuit, shots)` fails with
`InvalidShotCount` when `shots ≤ 0` and otherwise returns the aggregated
outcomes of `shots` draws (spec §4.4); the sampling is performed by the
external `AerSimulator`, not by code under `src/`. -/
def run (c : QuantumSimulator) (draw : ℕ → ℕ) (shots : ℤ) :
    Except SimError (Multiset String) :=
  if shots ≤ 0 then .error .invalidShotCount
  else .ok (sample_histogram c.num_qubits draw shots.toNat)

/-- The count of one bitstring in a histogram. -/
def hist_count (h : Multiset String) (key : String) : ℕ := h.count key

/-- Whether a gate operation involves (acts on or measures) qubit `q`. -/
def acts_on : Gate → ℕ → Bool
  | .h q, t => q == t
  | .x q, t => q == t
  | .cx c tg, t => c == t || tg == t
  | .rz _ q, t => q == t
  | .ry _ q, t => q == t
  | .measure q _, t => q == t

/-! ## Helper lemmas on the circuit-building loops -/

theorem foldl_cnot_chain (l : List ℕ) (s : QuantumSimulator) :
    l.foldl (fun st i => apply_cnot st i (i + 1)) s
      = { s with circuit := s.circuit ++ l.map (fun i => Gate.cx i (i + 1)) } :=
  foldl_append_gate (fun i => Gate.cx i (i + 1)) l s

theorem foldl_h_chain (l : List ℕ) (s : QuantumSimulator) :
    l.foldl (fun st i => append_gate st (.h i)) s
      = { s with circuit := s.circuit ++ l.map Gate.h } :=
  foldl_append_gate Gate.h l s

/-! ## Claim theorems: circuit structure -/

/-- C10: `measure_all` appends exactly `num_qubits` measurement operations,
measuring qubit `i` into classical bit `i` for `i = 0, …, num_qubits − 1`
in increasing order, appends nothing else, and returns the simulator with
its qubit count unchanged. -/
theorem measure_all_appends_identity_measurements (s : QuantumSimulator) :
    (measure_all s).circuit
        = s.circuit ++ (List.range s.num_qubits).map (fun i => Gate.measure i i)
    ∧ ((List.range s.num_qubits).map (fun i => Gate.measure i i)).length = s.num_qubits
    ∧ (measure_all s).num_qubits = s.num_qubits := by
  refine ⟨?_, by simp, ?_⟩ <;> rw [measure_all_def]

/-- C2: for every input pair `[a, b]`, `quantum_teleportation` appends
exactly: Pauli-X on qubit 0 if `a ≠ 0`, RotationZ(b) on qubit 0 if
`b ≠ 0`, Hadamard(1), ControlledX(1,2), ControlledX(0,1), Hadamard(0),
then measurement of qubit 0 into classical bit 0 and of qubit 1 into
classical bit 1 — and nothing more; in particular the only appended
operation involving qubit 2 is the entangling ControlledX(1,2), so no
classically-controlled correction is ever applied to qubit 2 after the
measurements. -/
theorem quantum_teleportation_gate_sequence (s : QuantumSimulator) (a b : ℝ) :
    (quantum_teleportation s a b).circuit
      = s.circuit
        ++ (if a ≠ 0 then [Gate.x 0] else [])
        ++ (if b ≠ 0 then [Gate.rz b 0] else [])
        ++ [Gate.h 1, Gate.cx 1 2, Gate.cx 0 1, Gate.h 0,
            Gate.measure 0 0, Gate.measure 1 1]
    ∧ ∀ g ∈ (quantum_teleportation s a b).circuit.drop s.circuit.length,
        acts_on g 2 = true → g = Gate.cx 1 2 := by
  have hcirc : (quantum_teleportation s a b).circuit
      = s.circuit
        ++ ((if a ≠ 0 then [Gate.x 0] else [])
        ++ ((if b ≠ 0 then [Gate.rz b 0] else [])
        ++ [Gate.h 1, Gate.cx 1 2, Gate.cx 0 1, Gate.h 0,
            Gate.measure 0 0, Gate.measure 1 1])) := by
    by_cases ha : a = 0 <;> by_cases hb : b = 0 <;>
      simp [quantum_teleportation, append_gate, ha, hb, List.append_assoc]
  constructor
  · rw [hcirc]; simp [List.append_assoc]
  · intro g hg hact
    rw [hcirc, List.drop_left] at hg
    rcases List.mem_append.1 hg with h1 | h12
    · have hx : g = Gate.x 0 := by revert h1; split <;> simp
      subst hx; simp [acts_on] at hact
    · rcases List.mem_append.1 h12 with h2 | h3
      · have hz : g = Gate.rz b 0 := by revert h2; split <;> simp
        subst hz; simp [acts_on] at hact
      · fin_cases h3 <;> simp_all [acts_on]

/-! ## Helper lemmas on the token encodings -/

theorem amplitude_encoding_circuit (p : QuantumTokenProcessor) (token_id : ℤ) :
    (p.amplitude_encoding token_id).quantum_sim.circuit
      = p.quantum_sim.circuit
        ++ [Gate.ry (((token_id.emod (2 ^ p.n_qubits) : ℤ) : ℝ)
              / ((2 : ℝ) ^ p.n_qubits) * Real.pi) 0]
        ++ (List.range (p.n_qubits - 1)).map (fun i => Gate.cx i (i + 1)) := by
  rw [QuantumTokenProcessor.amplitude_encoding]
  rw [foldl_cnot_chain]
  simp [append_gate, List.append_assoc]

theorem amplitude_encoding_n_qubits (p : QuantumTokenProcessor) (token_id : ℤ) :
    (p.amplitude_encoding token_id).n_qubits = p.n_qubits := rfl

theorem phase_encoding_circuit (p : QuantumTokenProcessor) (token_id : ℤ) :
    (p.phase_encoding token_id).quantum_sim.circuit
      = p.quantum_sim.circuit
        ++ (List.range p.n_qubits).map Gate.h
        ++ [Gate.rz (((token_id.emod (2 ^ p.n_qubits) : ℤ) : ℝ)
              / ((2 : ℝ) ^ p.n_qubits) * 2 * Real.pi) 0]
        ++ (List.range (p.n_qubits - 1)).map (fun i => Gate.cx i (i + 1)) := by
  rw [QuantumTokenProcessor.phase_encoding]
  rw [foldl_h_chain, foldl_cnot_chain]
  simp [append_gate, List.append_assoc]

theorem phase_encoding_n_qubits (p : QuantumTokenProcessor) (token_id : ℤ) :
    (p.phase_encoding token_id).n_qubits = p.n_qubits := rfl

/-- The normalized Y-rotation angle lies in `[0, π)`. -/
theorem amplitude_angle_mem_Ico (t : ℤ) (n : ℕ) :
    0 ≤ ((t.emod (2 ^ n) : ℤ) : ℝ) / ((2 : ℝ) ^ n) * Real.pi
    ∧ ((t.emod (2 ^ n) : ℤ) : ℝ) / ((2 : ℝ) ^ n) * Real.pi < Real.pi := by
  have hpow : (0 : ℤ) < 2 ^ n := by positivity
  have h0 : (0 : ℝ) ≤ ((t.emod (2 ^ n) : ℤ) : ℝ) := by
    exact_mod_cast Int.emod_nonneg t (by positivity)
  have h1 : ((t.emod (2 ^ n) : ℤ) : ℝ) < (2 : ℝ) ^ n := by
    exact_mod_cast Int.emod_lt_of_pos t hpow
  have hq : ((t.emod (2 ^ n) : ℤ) : ℝ) / ((2 : ℝ) ^ n) < 1 :=
    (div_lt_one (by positivity)).mpr h1
  refine ⟨mul_nonneg (by positivity) Real.pi_pos.le, ?_⟩
  calc ((t.emod (2 ^ n) : ℤ) : ℝ) / ((2 : ℝ) ^ n) * Real.pi
      < 1 * Real.pi := by
        exact mul_lt_mul_of_pos_right hq Real.pi_pos
    _ = Real.pi := one_mul _

/-! ## Claim theorems: token encodings -/

/-- C3: for every integer `tokenId` and qubit count `n ≥ 1`, the amplitude
encoding appends exactly a RotationY on qubit 0 with angle
`((tokenId mod 2^n) / 2^n) · π` — a value in `[0, π)` — followed by
ControlledX(i, i+1) for `i = 0, …, n−2` in increasing order, and no other
gates; the qubit count is unchanged. -/
theorem amplitude_encoding_appends_ry_then_cx_chain
    (p : QuantumTokenProcessor) (token_id : ℤ) (hn : 1 ≤ p.n_qubits) :
    (p.amplitude_encoding token_id).quantum_sim.circuit
      = p.quantum_sim.circuit
        ++ [Gate.ry (((token_id.emod (2 ^ p.n_qubits) : ℤ) : ℝ)
              / ((2 : ℝ) ^ p.n_qubits) * Real.pi) 0]
        ++ (List.range (p.n_qubits - 1)).map (fun i => Gate.cx i (i + 1))
    ∧ 0 ≤ ((token_id.emod (2 ^ p.n_qubits) : ℤ) : ℝ)
            / ((2 : ℝ) ^ p.n_qubits) * Real.pi
    ∧ ((token_id.emod (2 ^ p.n_qubits) : ℤ) : ℝ)
            / ((2 : ℝ) ^ p.n_qubits) * Real.pi < Real.pi
    ∧ (p.amplitude_encoding token_id).n_qubits = p.n_qubits :=
  ⟨amplitude_encoding_circuit p token_id,
   (amplitude_angle_mem_Ico token_id p.n_qubits).1,
   (amplitude_angle_mem_Ico token_id p.n_qubits).2,
   amplitude_encoding_n_qubits p token_id⟩

/-- C3 witness: the amplitude encoding of token 5 on 2 qubits appends
`RotationY(((5 mod 4)/4)·π, 0)` and then `ControlledX(0, 1)`. -/
theorem amplitude_encoding_appends_ry_then_cx_chain_witness :
    1 ≤ (QuantumTokenProcessor.mk 2 ⟨2, []⟩).n_qubits
    ∧ ((QuantumTokenProcessor.mk 2 ⟨2, []⟩).amplitude_encoding 5).quantum_sim.circuit
      = (QuantumTokenProcessor.mk 2 ⟨2, []⟩).quantum_sim.circuit
        ++ [Gate.ry ((((5 : ℤ).emod (2 ^ (QuantumTokenProcessor.mk 2 ⟨2, []⟩).n_qubits) : ℤ) : ℝ)
              / ((2 : ℝ) ^ (QuantumTokenProcessor.mk 2 ⟨2, []⟩).n_qubits) * Real.pi) 0]
        ++ (List.range ((QuantumTokenProcessor.mk 2 ⟨2, []⟩).n_qubits - 1)).map
              (fun i => Gate.cx i (i + 1)) :=
  ⟨by decide,
   (amplitude_encoding_appends_ry_then_cx_chain
      (QuantumTokenProcessor.mk 2 ⟨2, []⟩) 5 (by decide)).1⟩

/-- C4: for every integer `tokenId` and qubit count `n ≥ 1`, the hybrid
encoding is exactly the amplitude encoding applied to `tokenId mod 2^(n−1)`
followed by the phase encoding applied to `tokenId div 2^(n−1)`, both
accumulating gates on the same shared circuit in that order; unfolded, it
appends the amplitude gates (RotationY then the CX chain) and then the
phase gates (Hadamard on every qubit, RotationZ on qubit 0 with angle
`((part mod 2^n)/2^n) · 2π`, then the CX chain). -/
theorem hybrid_encoding_is_amplitude_then_phase
    (p : QuantumTokenProcessor) (token_id : ℤ) (hn : 1 ≤ p.n_qubits) :
    p.hybrid_encoding token_id
      = (p.amplitude_encoding (token_id.emod (2 ^ (p.n_qubits - 1)))).phase_encoding
          (token_id.ediv (2 ^ (p.n_qubits - 1)))
    ∧ (p.hybrid_encoding token_id).quantum_sim.circuit
      = p.quantum_sim.circuit
        ++ [Gate.ry ((((token_id.emod (2 ^ (p.n_qubits - 1))).emod (2 ^ p.n_qubits) : ℤ) : ℝ)
              / ((2 : ℝ) ^ p.n_qubits) * Real.pi) 0]
        ++ (List.range (p.n_qubits - 1)).map (fun i => Gate.cx i (i + 1))
        ++ (List.range p.n_qubits).map Gate.h
        ++ [Gate.rz ((((token_id.ediv (2 ^ (p.n_qubits - 1))).emod (2 ^ p.n_qubits) : ℤ) : ℝ)
              / ((2 : ℝ) ^ p.n_qubits) * 2 * Real.pi) 0]
        ++ (List.range (p.n_qubits - 1)).map (fun i => Gate.cx i (i + 1))
    ∧ (p.hybrid_encoding token_id).n_qubits = p.n_qubits := by
  refine ⟨rfl, ?_, rfl⟩
  rw [QuantumTokenProcessor.hybrid_encoding]
  rw [phase_encoding_circuit, amplitude_encoding_circuit]
  simp [amplitude_encoding_n_qubits, List.append_assoc]

/-- C4 witness: the hybrid encoding of token 5 on a fresh 2-qubit
processor. -/
theorem hybrid_encoding_is_amplitude_then_phase_witness :
    1 ≤ (QuantumTokenProcessor.mk 2 ⟨2, []⟩).n_qubits
    ∧ (QuantumTokenProcessor.mk 2 ⟨2, []⟩).hybrid_encoding 5
      = ((QuantumTokenProcessor.mk 2 ⟨2, []⟩).amplitude_encoding
            ((5 : ℤ).emod (2 ^ ((QuantumTokenProcessor.mk 2 ⟨2, []⟩).n_qubits - 1)))).phase_encoding
          ((5 : ℤ).ediv (2 ^ ((QuantumTokenProcessor.mk 2 ⟨2, []⟩).n_qubits - 1))) :=
  ⟨by decide,
   (hybrid_encoding_is_amplitude_then_phase
      (QuantumTokenProcessor.mk 2 ⟨2, []⟩) 5 (by decide)).1⟩

/-! ## Claim theorems: process_token -/

/-- C6: for every scheme name outside `{"amplitude", "phase", "hybrid"}`
and every token id, `process_token` does not fail but encodes the token
with the hybrid encoding: it produces exactly the processor state — hence
exactly the built circuit and the underlying Born-rule distribution — that
`process_token` with scheme `"hybrid"` produces. -/
theorem process_token_falls_back_to_hybrid
    (p : QuantumTokenProcessor) (token_id : ℤ) (scheme : String)
    (h1 : scheme ≠ "amplitude") (h2 : scheme ≠ "phase") (h3 : scheme ≠ "hybrid") :
    p.process_token token_id scheme = p.process_token token_id "hybrid"
    ∧ born (run_gates (p.process_token token_id scheme).quantum_sim.circuit ground)
        = born (run_gates (p.process_token token_id "hybrid").quantum_sim.circuit ground) := by
  have heq : p.process_token token_id scheme = p.process_token token_id "hybrid" := by
    rw [QuantumTokenProcessor.process_token, QuantumTokenProcessor.process_token]
    rw [if_neg h1, if_neg h2, if_neg h3,
        if_neg (by decide : ¬("hybrid" = "amplitude")),
        if_neg (by decide : ¬("hybrid" = "phase")), if_pos rfl]
  exact ⟨heq, by rw [heq]⟩

/-- C6 witness: the unrecognized scheme name `"fourier"` produces the
hybrid result. -/
theorem process_token_falls_back_to_hybrid_witness :
    ("fourier" ≠ "amplitude" ∧ "fourier" ≠ "phase" ∧ "fourier" ≠ "hybrid")
    ∧ (QuantumTokenProcessor.mk 2 ⟨2, []⟩).process_token 7 "fourier"
        = (QuantumTokenProcessor.mk 2 ⟨2, []⟩).process_token 7 "hybrid" :=
  ⟨by decide,
   (process_token_falls_back_to_hybrid (QuantumTokenProcessor.mk 2 ⟨2, []⟩) 7 "fourier"
      (by decide) (by decide) (by decide)).1⟩

/-- C9: `process_token` starts from a freshly constructed simulator, so two
calls with the same `(tokenId, scheme)` on processors that agree on the
qubit count produce identical results — identical built circuits and hence
identical underlying Born-rule distributions — regardless of any gate
history accumulated in `quantum_sim` by previously processed tokens. -/
theorem process_token_independent_of_history
    (p₁ p₂ : QuantumTokenProcessor) (token_id : ℤ) (scheme : String)
    (h : p₁.n_qubits = p₂.n_qubits) :
    p₁.process_token token_id scheme = p₂.process_token token_id scheme
    ∧ (p₁.process_token token_id scheme).quantum_sim.circuit
        = (p₂.process_token token_id scheme).quantum_sim.circuit
    ∧ born (run_gates (p₁.process_token token_id scheme).quantum_sim.circuit ground)
        = born (run_gates (p₂.process_token token_id scheme).quantum_sim.circuit ground) := by
  have hreset : ({ p₁ with quantum_sim := ⟨p₁.n_qubits, []⟩ } : QuantumTokenProcessor)
      = { p₂ with quantum_sim := ⟨p₂.n_qubits, []⟩ } := by
    cases p₁; cases p₂
    simp only at h
    simp [h]
  have heq : p₁.process_token token_id scheme = p₂.process_token token_id scheme := by
    rw [QuantumTokenProcessor.process_token, QuantumTokenProcessor.process_token, hreset]
  exact ⟨heq, by rw [heq], by rw [heq]⟩

/-- C9 witness: a processor that already carries Bell-pair gate history in
its simulator builds the same circuit for token 7 as a pristine one. -/
theorem process_token_independent_of_history_witness :
    (QuantumTokenProcessor.mk 2 ⟨2, [Gate.h 0, Gate.cx 0 1]⟩).n_qubits
        = (QuantumTokenProcessor.mk 2 ⟨2, []⟩).n_qubits
    ∧ (QuantumTokenProcessor.mk 2 ⟨2, [Gate.h 0, Gate.cx 0 1]⟩).process_token 7 "amplitude"
        = (QuantumTokenProcessor.mk 2 ⟨2, []⟩).process_token 7 "amplitude" :=
  ⟨by decide,
   (process_token_independent_of_history
      (QuantumTokenProcessor.mk 2 ⟨2, [Gate.h 0, Gate.cx 0 1]⟩)
      (QuantumTokenProcessor.mk 2 ⟨2, []⟩) 7 "amplitude" (by decide)).1⟩

/-! ## Claim theorems: sampler and configuration validation -/

/-- C7: for every shot count `shots ≤ 0`, `run` fails with an
`InvalidShotCount` error rather than returning a histogram. -/
theorem run_rejects_nonpositive_shots
    (c : QuantumSimulator) (draw : ℕ → ℕ) (shots : ℤ) (h : shots ≤ 0) :
    run c draw shots = .error .invalidShotCount := by
  rw [run, if_pos h]

/-- C7 witness: `shots = 0` is rejected. -/
theorem run_rejects_nonpositive_shots_witness :
    (0 : ℤ) ≤ 0
    ∧ run ⟨1, []⟩ (fun _ => 0) 0 = .error .invalidShotCount :=
  ⟨by decide, run_rejects_nonpositive_shots ⟨1, []⟩ (fun _ => 0) 0 (by decide)⟩

/-- C8: for every qubit count `n ≤ 0` (zero or negative), constructing a
simulator with `n` qubits is rejected with a `ConfigurationError`. -/
theorem mk_simulator_rejects_nonpositive_qubits (n : ℤ) (h : n ≤ 0) :
    mk_simulator n = .error .configurationError := by
  rw [mk_simulator, if_pos h]

/-- C8 witness: a qubit count of 0 is rejected. -/
theorem mk_simulator_rejects_nonpositive_qubits_witness :
    (0 : ℤ) ≤ 0 ∧ mk_simulator 0 = .error .configurationError :=
  ⟨by decide, mk_simulator_rejects_nonpositive_qubits 0 (by decide)⟩

/-- C5: for every circuit and every valid (positive) shot count, `run`
returns a histogram mapping bitstrings to non-negative integer counts whose
sum equals `shots` exactly. -/
theorem run_counts_sum_to_shots
    (c : QuantumSimulator) (draw : ℕ → ℕ) (shots : ℤ) (h : 0 < shots) :
    run c draw shots = .ok (sample_histogram c.num_qubits draw shots.toNat)
    ∧ (∑ key ∈ (sample_histogram c.num_qubits draw shots.toNat).toFinset,
          hist_count (sample_histogram c.num_qubits draw shots.toNat) key)
        = shots.toNat
    ∧ (shots.toNat : ℤ) = shots
    ∧ ∀ key, 0 ≤ hist_count (sample_histogram c.num_qubits draw shots.toNat) key := by
  refine ⟨by rw [run, if_neg (not_le.mpr h)], ?_, Int.toNat_of_nonneg h.le,
    fun key => Nat.zero_le _⟩
  rw [show (fun key => hist_count (sample_histogram c.num_qubits draw shots.toNat) key)
        = fun key => (sample_histogram c.num_qubits draw shots.toNat).count key from rfl]
  rw [Multiset.toFinset_sum_count_eq]
  simp [sample_histogram]

/-- C5 witness: three shots of a constant draw give counts summing to 3. -/
theorem run_counts_sum_to_shots_witness :
    (0 : ℤ) < 3
    ∧ run ⟨1, []⟩ (fun _ => 0) 3
        = .ok (sample_histogram (QuantumSimulator.mk 1 []).num_qubits (fun _ => 0) (3 : ℤ).toNat) :=
  ⟨by decide, (run_counts_sum_to_shots ⟨1, []⟩ (fun _ => 0) 3 (by decide)).1⟩

/-! ## The Bell state

The state produced by the `create_bell_pair` circuit on the ground state,
under the spec-modelled engine. -/

/-- The final amplitude vector of the circuit built by `create_bell_pair`
on a fresh simulator, starting in the ground state. -/
noncomputable def bell_state : QState :=
  run_gates (create_bell_pair ⟨2, []⟩).circuit ground

theorem bell_circuit_eq :
    (create_bell_pair (⟨2, []⟩ : QuantumSimulator)).circuit
      = [Gate.h 0, Gate.cx 0 1] := by
  simp [create_bell_pair, apply_cnot, apply_hadamard, append_gate]

theorem apply_h0_ground (i : ℕ) :
    apply_gate (Gate.h 0) ground i
      = if i = 0 ∨ i = 1 then (((Real.sqrt 2)⁻¹ : ℝ) : ℂ) else 0 := by
  have hxor : ∀ j : ℕ, (j ^^^ 1 = 0) ↔ j = 1 := fun j => Nat.xor_eq_zero
  simp only [apply_gate, ground, pow_zero]
  by_cases hb : Nat.testBit i 0
  · have hodd : i % 2 = 1 := by rw [Nat.testBit_zero] at hb; simpa using hb
    have hi0 : i ≠ 0 := by omega
    rw [if_pos hb]
    by_cases h1 : i = 1
    · subst h1
      norm_num [hxor, Complex.ofReal_inv]
    · rw [if_neg hi0, if_neg (fun hz => h1 ((hxor i).1 hz)),
        if_neg (show ¬(i = 0 ∨ i = 1) by tauto)]
      simp
  · have heven : i % 2 = 0 := by
      rw [Nat.testBit_zero] at hb
      simp only [decide_eq_true_eq] at hb
      omega
    have hi1 : i ≠ 1 := by omega
    rw [if_neg hb, if_neg (fun hz => hi1 ((hxor i).1 hz))]
    by_cases h0 : i = 0
    · subst h0
      norm_num [Complex.ofReal_inv]
    · rw [if_neg h0, if_neg (show ¬(i = 0 ∨ i = 1) by tauto)]
      simp

theorem bell_state_apply (i : ℕ) :
    bell_state i = if i = 0 ∨ i = 3 then (((Real.sqrt 2)⁻¹ : ℝ) : ℂ) else 0 := by
  have hrun : bell_state = apply_gate (Gate.cx 0 1) (apply_gate (Gate.h 0) ground) := by
    rw [bell_state, bell_circuit_eq]; rfl
  rw [hrun]
  by_cases hb : Nat.testBit i 0
  · have hodd : i % 2 = 1 := by rw [Nat.testBit_zero] at hb; simpa using hb
    rw [show apply_gate (Gate.cx 0 1) (apply_gate (Gate.h 0) ground) i
          = apply_gate (Gate.h 0) ground (i ^^^ 2 ^ 1) from by
        simp [apply_gate, hb]]
    rw [apply_h0_ground]
    by_cases h3 : i = 3
    · subst h3
      rw [show (3 : ℕ) ^^^ 2 ^ 1 = 1 from by decide]
      norm_num
    · have hne0 : i ^^^ 2 ^ 1 ≠ 0 := by
        intro hz
        have : i = 2 := Nat.xor_eq_zero.1 (by simpa using hz)
        omega
      have hne1 : i ^^^ 2 ^ 1 ≠ 1 := by
        intro hz
        apply h3
        have h2 : i ^^^ 2 = 1 := by simpa using hz
        have := congrArg (· ^^^ 2) h2
        simpa [Nat.xor_cancel_right] using this
      rw [if_neg (show ¬(i ^^^ 2 ^ 1 = 0 ∨ i ^^^ 2 ^ 1 = 1) by tauto),
        if_neg (show ¬(i = 0 ∨ i = 3) by omega)]
  · have heven : i % 2 = 0 := by
      rw [Nat.testBit_zero] at hb
      simp only [decide_eq_true_eq] at hb
      omega
    rw [show apply_gate (Gate.cx 0 1) (apply_gate (Gate.h 0) ground) i
          = apply_gate (Gate.h 0) ground i from by simp [apply_gate, hb]]
    rw [apply_h0_ground]
    by_cases h0 : i = 0
    · subst h0; norm_num
    · rw [if_neg (show ¬(i = 0 ∨ i = 1) by omega),
        if_neg (show ¬(i = 0 ∨ i = 3) by omega)]

theorem normSq_inv_sqrt_two :
    Complex.normSq (((Real.sqrt 2)⁻¹ : ℝ) : ℂ) = 1 / 2 := by
  rw [Complex.normSq_ofReal, ← mul_inv, Real.mul_self_sqrt (by norm_num)]
  norm_num

theorem born_bell_support (i : ℕ) (h : born bell_state i ≠ 0) :
    i = 0 ∨ i = 3 := by
  by_contra hc
  push_neg at hc
  apply h
  rw [born, bell_state_apply, if_neg (by tauto)]
  simp

/-- C1: for every simulator with at least 2 qubits, `create_bell_pair`
appends exactly Hadamard(0) followed by ControlledX(0, 1) and preserves the
qubit count; under the spec-modelled engine the resulting state of that
circuit on the ground state is `(|00⟩ + |11⟩)/√2` — basis indices 0 and 3
have Born probability 1/2 each and indices 1 and 2 (the outcomes `"01"` and
`"10"`) probability 0 — so for every shot count ≥ 1, every histogram drawn
from that Born distribution has its keys among `{"00", "11"}`. -/
theorem create_bell_pair_spec (s : QuantumSimulator) (hn : 2 ≤ s.num_qubits) :
    (create_bell_pair s).circuit = s.circuit ++ [Gate.h 0, Gate.cx 0 1]
    ∧ (create_bell_pair s).num_qubits = s.num_qubits
    ∧ born bell_state 0 = 1 / 2 ∧ born bell_state 3 = 1 / 2
    ∧ born bell_state 1 = 0 ∧ born bell_state 2 = 0
    ∧ bitstring 2 0 = "00" ∧ bitstring 2 3 = "11"
    ∧ ∀ shots : ℕ, 1 ≤ shots → ∀ draw : ℕ → ℕ,
        (∀ k, k < shots → born bell_state (draw k) ≠ 0) →
        ∀ key ∈ sample_histogram 2 draw shots, key = "00" ∨ key = "11" := by
  refine ⟨?_, rfl, ?_, ?_, ?_, ?_, by decide, by decide, ?_⟩
  · simp [create_bell_pair, apply_cnot, apply_hadamard, append_gate, List.append_assoc]
  · rw [born, bell_state_apply]; norm_num [normSq_inv_sqrt_two]
  · rw [born, bell_state_apply]; norm_num [normSq_inv_sqrt_two]
  · rw [born, bell_state_apply]; norm_num
  · rw [born, bell_state_apply]; norm_num
  · intro shots _ draw hdraw key hkey
    rw [sample_histogram, Multiset.mem_coe, List.mem_map] at hkey
    obtain ⟨k, hk, rfl⟩ := hkey
    rw [List.mem_range] at hk
    rcases born_bell_support (draw k) (hdraw k hk) with h0 | h3
    · left; rw [h0]; decide
    · right; rw [h3]; decide

/-- C1 witness: the 2-qubit fresh simulator. -/
theorem create_bell_pair_spec_witness :
    2 ≤ (QuantumSimulator.mk 2 []).num_qubits
    ∧ (create_bell_pair (QuantumSimulator.mk 2 [])).circuit
        = (QuantumSimulator.mk 2 []).circuit ++ [Gate.h 0, Gate.cx 0 1] :=
  ⟨by decide, (create_bell_pair_spec (QuantumSimulator.mk 2 []) (by decide)).1⟩

end QuantumSim
